import Mathlib

/-!
Shallow embedding of the Gradr background job queue (`src/backend/worker.js`,
which bundles the worker loop, the SQLite-backed job store `db.js`, and the
autograde service).  The job table and folder-serial table become Lean lists,
each prepared SQL statement becomes a list transformation, and `strftime` /
`Date.now()` become an explicit `now : Nat` (epoch seconds) argument.
-/

namespace Gradr

/-- Job status: the `status` column takes the values
`queued | processing | done | failed`. -/
inductive Status where
  | queued
  | processing
  | done
  | failed
deriving DecidableEq, Repr

/-- One row of the `jobs` table. -/
structure Job where
  id : Nat
  folder : String
  image_path : String
  text_path : String
  status : Status
  attempts : Nat
  last_error : Option String
  priority : Int
  available_at : Nat
  created_at : Nat
  updated_at : Nat
deriving DecidableEq, Repr

/-- The persistent store: the `jobs` table, the `folders` serial table
(one `(folder, last_serial)` row per folder), and the AUTOINCREMENT
high-water mark for job ids. -/
structure Store where
  jobs : List Job
  folders : List (String × Nat)
  nextId : Nat
deriving DecidableEq, Repr

/-- Embeds `backoffSeconds(attempts)` from worker.js:
`raw = BACKOFF_BASE * BACKOFF_FACTOR ** attempts`,
`jitter = 1 + (Math.random()*2 - 1) * BACKOFF_JITTER`,
`Math.max(1, Math.floor(raw * jitter))`.
`rand` stands for the `Math.random()` draw in `[0,1]`. -/
def backoffSeconds (base factor J rand : ℚ) (attempts : Nat) : ℤ :=
  let raw := base * factor ^ attempts
  let jitter := 1 + (rand * 2 - 1) * J
  max 1 ⌊raw * jitter⌋

/-- Embeds `insertJob` + `enqueueJob(folder, image_path, text_path, priority, delaySeconds)`:
inserts a row with status queued, `attempts = 0`,
`available_at = now + delaySeconds`. -/
def enqueueJob (st : Store) (now : Nat) (folder image_path text_path : String)
    (priority : Int) (delaySeconds : Nat) : Store :=
  { st with
    jobs := st.jobs ++
      [{ id := st.nextId, folder := folder, image_path := image_path,
         text_path := text_path, status := .queued, attempts := 0,
         last_error := none, priority := priority,
         available_at := now + delaySeconds, created_at := now,
         updated_at := now }],
    nextId := st.nextId + 1 }

/-- The diagnostic note appended by `requeueStaleStmt`. -/
def staleNote : String := "[auto] requeued stale processing job"

/-- New `last_error` under `requeueStaleStmt`: COALESCE the old text with the
empty string, then append the note, newline-joined exactly when the old text
was present and nonempty. -/
def appendStaleNote : Option String → String
  | none => staleNote
  | some s => if s = "" then staleNote else s ++ "\n" ++ staleNote

/-- The `WHERE` clause of `requeueStaleStmt`: status is processing and
`updated_at <= now - stale` (written additively to stay in `Nat`). -/
def isStale (now stale : Nat) (j : Job) : Bool :=
  j.status = Status.processing && j.updated_at + stale ≤ now

/-- Row update performed by `requeueStaleStmt` on a matching row. -/
def requeueRow (now stale : Nat) (j : Job) : Job :=
  if isStale now stale j then
    { j with status := .queued, available_at := now, updated_at := now,
             last_error := some (appendStaleNote j.last_error) }
  else j

/-- Embeds `requeueStaleJobs(staleSeconds)`: runs `requeueStaleStmt` and returns the
new table together with `.changes` (the number of rows matched). -/
def requeueStaleJobs (st : Store) (now stale : Nat) : Store × Nat :=
  ({ st with jobs := st.jobs.map (requeueRow now stale) },
   (st.jobs.filter (isStale now stale)).length)

/-- The `WHERE` clause of `claimStmt`: status is queued and
`available_at <= now`. -/
def eligible (now : Nat) (j : Job) : Bool :=
  j.status = Status.queued && j.available_at ≤ now

/-- The `ORDER BY priority DESC, available_at ASC, id ASC` comparison of
`claimStmt`, as a total Boolean preorder. -/
def claimLE (a b : Job) : Bool :=
  if a.priority = b.priority then
    if a.available_at = b.available_at then a.id ≤ b.id
    else a.available_at ≤ b.available_at
  else b.priority ≤ a.priority

/-- Embeds `claimLE` as a Prop-valued relation (for the sort API). -/
def claimOrder (a b : Job) : Prop := claimLE a b = true

instance : DecidableRel claimOrder :=
  fun a b => inferInstanceAs (Decidable (claimLE a b = true))

/-- The projection returned by `claimStmt`:
`SELECT id, folder, image_path, text_path, attempts`. -/
structure ClaimedRow where
  id : Nat
  folder : String
  image_path : String
  text_path : String
  attempts : Nat
deriving DecidableEq, Repr

def rowOf (j : Job) : ClaimedRow :=
  { id := j.id, folder := j.folder, image_path := j.image_path,
    text_path := j.text_path, attempts := j.attempts }

/-- The ordered, limited candidate selection of `claimStmt`
(before projecting columns). -/
def claimSelect (st : Store) (now limit : Nat) : List Job :=
  (((st.jobs.filter (eligible now)).insertionSort claimOrder).take limit)

/-- Embeds `claimStmt.all({limit})`. -/
def claimStmt (st : Store) (now limit : Nat) : List ClaimedRow :=
  (claimSelect st now limit).map rowOf

/-- Row update performed by `markProcessing` on a matching row
(`WHERE id=@id AND status=queued`). -/
def markProcessingRow (now id : Nat) (j : Job) : Job :=
  if j.id = id && j.status = Status.queued then
    { j with status := .processing, updated_at := now }
  else j

/-- Embeds `markProcessing.run({id})`: conditional update guarded by the status
being queued, returning the new table and `.changes`. -/
def markProcessing (st : Store) (now id : Nat) : Store × Nat :=
  ({ st with jobs := st.jobs.map (markProcessingRow now id) },
   (st.jobs.filter (fun j => j.id = id && j.status = Status.queued)).length)

/-- The `for (const r of rows)` loop of `claimJobs`: run `markProcessing` on
each candidate and keep exactly the rows where `res.changes === 1`. -/
def claimLoop (now : Nat) (st : Store) : List ClaimedRow → Store × List ClaimedRow
  | [] => (st, [])
  | r :: rs =>
    let m := markProcessing st now r.id
    let rest := claimLoop now m.1 rs
    (rest.1, if m.2 = 1 then r :: rest.2 else rest.2)

/-- Embeds `claimJobs(limit)`: one transaction that first requeues stale
`processing` jobs, then selects candidates, then conditionally claims each. -/
def claimJobs (st : Store) (now limit stale : Nat) : Store × List ClaimedRow :=
  let st0 := (requeueStaleJobs st now stale).1
  claimLoop now st0 (claimStmt st0 now limit)

/-- Row update performed by `markDone` (`WHERE id=@id`, unconditional on
status): status becomes done, `last_error` becomes NULL. -/
def markDoneRow (now id : Nat) (j : Job) : Job :=
  if j.id = id then
    { j with status := .done, updated_at := now, last_error := none }
  else j

/-- Embeds `markDone.run({id})` / `completeJob(id)`. -/
def completeJob (st : Store) (now id : Nat) : Store :=
  { st with jobs := st.jobs.map (markDoneRow now id) }

/-- Row update performed by `markFail` (`WHERE id=@id`, unconditional on
status): status becomes failed when final and queued otherwise,
`attempts = attempts + 1`, `last_error = @err`, `available_at = @next_time`. -/
def markFailRow (now : Nat) (id : Nat) (final : Bool) (err : String)
    (next_time : Nat) (j : Job) : Job :=
  if j.id = id then
    { j with status := if final then .failed else .queued,
             attempts := j.attempts + 1, last_error := some err,
             available_at := next_time, updated_at := now }
  else j

/-- Embeds `markFail.run({...})`. -/
def markFail (st : Store) (now id : Nat) (final : Bool) (err : String)
    (next_time : Nat) : Store :=
  { st with jobs := st.jobs.map (markFailRow now id final err next_time) }

/-- Embeds `failJob(id, attempts, err, maxAttempts, backoffSeconds)`:
`final = attempts + 1 >= maxAttempts`, `next_time = now` when final else
`now + backoffSeconds`, error message truncated to 2000 characters. -/
def failJob (st : Store) (now id attempts : Nat) (err : String)
    (maxAttempts backoff : Nat) : Store :=
  let final : Bool := attempts + 1 ≥ maxAttempts
  let next_time := if final then now else now + backoff
  markFail st now id final (err.take 2000) next_time

/-- The failure branch of `workOne` in worker.js: compute
`backoffSeconds(job.attempts)` (with `rand` the `Math.random()` draw) and call
`failJob(id, attempts, message, MAX_ATTEMPTS, backoff)`. -/
def workOneFail (st : Store) (now : Nat) (base factor J rand : ℚ)
    (row : ClaimedRow) (errMsg : String) (maxAttempts : Nat) : Store :=
  failJob st now row.id row.attempts errMsg maxAttempts
    (backoffSeconds base factor J rand row.attempts).toNat

/-- Embeds `upsertFolder`: `INSERT INTO folders(folder, last_serial) VALUES(?, 0)
ON CONFLICT(folder) DO NOTHING`. -/
def upsertFolder (fs : List (String × Nat)) (f : String) : List (String × Nat) :=
  if fs.any (fun p => p.1 = f) then fs else fs ++ [(f, 0)]

/-- Embeds `incSerial`: `UPDATE folders SET last_serial = last_serial + 1
WHERE folder = ?`. -/
def incSerial (fs : List (String × Nat)) (f : String) : List (String × Nat) :=
  fs.map (fun p => if p.1 = f then (p.1, p.2 + 1) else p)

/-- Embeds `getSerial`: `SELECT last_serial FROM folders WHERE folder = ?`. -/
def getSerial (fs : List (String × Nat)) (f : String) : Option Nat :=
  (fs.find? (fun p => p.1 = f)).map (·.2)

/-- Embeds `nextSerial(folder)`: upsert, increment, read back, inside one
transaction. -/
def nextSerial (st : Store) (f : String) : Store × Nat :=
  let fs1 := incSerial (upsertFolder st.folders f) f
  ({ st with folders := fs1 }, ((getSerial fs1 f).getD 0))

/-- The `WHERE` clause of the purge statements: status equals `s` and
`updated_at <= now - age`. -/
def purgeMatch (now age : Nat) (s : Status) (j : Job) : Bool :=
  j.status = s && j.updated_at + age ≤ now

/-- Embeds `purgeOldJobs(days)`: `age = days*24*60*60`; delete old done rows,
then old failed rows, returning both `.changes` counts. -/
def purgeOldJobs (st : Store) (now days : Nat) : Store × Nat × Nat :=
  let age := days * 24 * 60 * 60
  let d := (st.jobs.filter (purgeMatch now age .done)).length
  let jobs1 := st.jobs.filter (fun j => ! purgeMatch now age .done j)
  let f := (jobs1.filter (purgeMatch now age .failed)).length
  let jobs2 := jobs1.filter (fun j => ! purgeMatch now age .failed j)
  ({ st with jobs := jobs2 }, d, f)


/-! ### Small helper lemmas about the row updates -/

theorem requeueRow_id_eq (now stale : Nat) (j : Job) :
    (requeueRow now stale j).id = j.id := by
  unfold requeueRow; split <;> rfl

theorem markProcessingRow_id_eq (now id : Nat) (j : Job) :
    (markProcessingRow now id j).id = j.id := by
  unfold markProcessingRow; split <;> rfl

theorem markProcessingRow_of_not_queued (now id : Nat) (j : Job)
    (h : j.status ≠ .queued) : markProcessingRow now id j = j := by
  unfold markProcessingRow
  rw [if_neg]
  simp [h]

theorem requeueRow_of_not_stale (now stale : Nat) (j : Job)
    (h : isStale now stale j = false) : requeueRow now stale j = j := by
  unfold requeueRow
  rw [if_neg]
  simp [h]

/-! ### C5: backoff formula -/

/-- C5: for every attempt count `n` and every `Math.random()` draw
`rand ∈ [0,1]`, the jitter factor `1 + (rand*2 - 1)*J` lies in `[1-J, 1+J]`,
the backoff delay equals `max 1 ⌊base * factor^n * jitterFactor⌋`, the delay
is always at least 1 second, and (for `J > 0`) every jitter factor in
`[1-J, 1+J]` is attained by some draw in `[0,1]`. -/
theorem backoff_jitter_formula (base factor J rand : ℚ) (n : Nat)
    (hJ : 0 ≤ J) (h0 : 0 ≤ rand) (h1 : rand ≤ 1) :
    (1 - J ≤ 1 + (rand * 2 - 1) * J ∧ 1 + (rand * 2 - 1) * J ≤ 1 + J) ∧
    backoffSeconds base factor J rand n =
      max 1 ⌊base * factor ^ n * (1 + (rand * 2 - 1) * J)⌋ ∧
    1 ≤ backoffSeconds base factor J rand n ∧
    (0 < J → ∀ jf : ℚ, 1 - J ≤ jf → jf ≤ 1 + J →
      ∃ r : ℚ, 0 ≤ r ∧ r ≤ 1 ∧
        backoffSeconds base factor J r n = max 1 ⌊base * factor ^ n * jf⌋) := by
  refine ⟨⟨?_, ?_⟩, rfl, le_max_left _ _, ?_⟩
  · nlinarith [mul_nonneg h0 hJ]
  · nlinarith [mul_nonneg (sub_nonneg.mpr h1) hJ]
  · intro hJpos jf hlo hhi
    have hJne : (2 : ℚ) * J ≠ 0 := by positivity
    refine ⟨(jf - (1 - J)) / (2 * J), ?_, ?_, ?_⟩
    · apply div_nonneg (by linarith) (by positivity)
    · rw [div_le_one (by positivity)]; linarith
    · have hjit : 1 + ((jf - (1 - J)) / (2 * J) * 2 - 1) * J = jf := by
        field_simp
        ring
      calc backoffSeconds base factor J ((jf - (1 - J)) / (2 * J)) n
          = max 1 ⌊base * factor ^ n *
              (1 + ((jf - (1 - J)) / (2 * J) * 2 - 1) * J)⌋ := rfl
        _ = max 1 ⌊base * factor ^ n * jf⌋ := by rw [hjit]

/-- Witness for C5 at `base = 5`, `factor = 2`, `J = 1/5`, `rand = 1/2`,
`n = 3` (the worker defaults after three attempts). -/
theorem backoff_jitter_formula_witness :
    (0 ≤ (1/5 : ℚ) ∧ 0 ≤ (1/2 : ℚ) ∧ (1/2 : ℚ) ≤ 1) ∧
    ((1 - (1/5 : ℚ) ≤ 1 + ((1/2 : ℚ) * 2 - 1) * (1/5) ∧
      1 + ((1/2 : ℚ) * 2 - 1) * (1/5) ≤ 1 + 1/5) ∧
     backoffSeconds 5 2 (1/5) (1/2) 3 =
       max 1 ⌊(5 : ℚ) * 2 ^ 3 * (1 + ((1/2 : ℚ) * 2 - 1) * (1/5))⌋ ∧
     1 ≤ backoffSeconds 5 2 (1/5) (1/2) 3 ∧
     (0 < (1/5 : ℚ) → ∀ jf : ℚ, 1 - 1/5 ≤ jf → jf ≤ 1 + 1/5 →
       ∃ r : ℚ, 0 ≤ r ∧ r ≤ 1 ∧
         backoffSeconds 5 2 (1/5) r 3 = max 1 ⌊(5 : ℚ) * 2 ^ 3 * jf⌋)) :=
  ⟨⟨by norm_num, by norm_num, by norm_num⟩,
   backoff_jitter_formula 5 2 (1/5) (1/2) 3 (by norm_num) (by norm_num) (by norm_num)⟩

/-! ### C2: failure path -/

/-- C2: when processing a claimed row fails, `workOneFail` (the catch
branch of `workOne` calling `failJob` with the pre-failure attempt count)
increments the stored `attempts` by exactly one, records the (truncated)
failure message in `last_error`, and either requeues the job with
`available_at = now + backoffSeconds(attempts)` when `attempts + 1` is below
`maxAttempts`, or marks it failed with `available_at = now` otherwise; all
other rows are untouched. -/
theorem failJob_retry_semantics (st : Store) (now : Nat) (base factor J rand : ℚ)
    (row : ClaimedRow) (err : String) (maxAttempts : Nat) (j : Job)
    (hmem : j ∈ st.jobs) (hid : row.id = j.id) (hatt : row.attempts = j.attempts) :
    ∃ j' ∈ (workOneFail st now base factor J rand row err maxAttempts).jobs,
      j'.id = j.id ∧
      j'.attempts = j.attempts + 1 ∧
      j'.last_error = some (err.take 2000) ∧
      (j.attempts + 1 < maxAttempts →
        j'.status = .queued ∧
        j'.available_at = now + (backoffSeconds base factor J rand j.attempts).toNat) ∧
      (maxAttempts ≤ j.attempts + 1 →
        j'.status = .failed ∧ j'.available_at = now) ∧
      (∀ k ∈ st.jobs, k.id ≠ j.id →
        k ∈ (workOneFail st now base factor J rand row err maxAttempts).jobs) := by
  obtain ⟨rid, rfold, rip, rtp, ratt⟩ := row
  simp only at hid hatt
  subst hid hatt
  by_cases hfin : maxAttempts ≤ j.attempts + 1
  · have hjobs : (workOneFail st now base factor J rand ⟨j.id, rfold, rip, rtp, j.attempts⟩
        err maxAttempts).jobs
        = st.jobs.map (markFailRow now j.id true (err.take 2000) now) := by
      simp [workOneFail, failJob, markFail, ge_iff_le, hfin]
    refine ⟨markFailRow now j.id true (err.take 2000) now j, ?_, ?_, ?_, ?_, ?_, ?_, ?_⟩
    · rw [hjobs]; exact List.mem_map_of_mem _ hmem
    · simp [markFailRow]
    · simp [markFailRow]
    · simp [markFailRow]
    · intro h; exact absurd h (by omega)
    · intro _; constructor <;> simp [markFailRow]
    · intro k hk hkid
      rw [hjobs]
      have hfix : markFailRow now j.id true (err.take 2000) now k = k := by
        simp [markFailRow, hkid]
      exact hfix ▸ List.mem_map_of_mem _ hk
  · have hjobs : (workOneFail st now base factor J rand ⟨j.id, rfold, rip, rtp, j.attempts⟩
        err maxAttempts).jobs
        = st.jobs.map (markFailRow now j.id false (err.take 2000)
            (now + (backoffSeconds base factor J rand j.attempts).toNat)) := by
      simp [workOneFail, failJob, markFail, ge_iff_le, hfin]
    refine ⟨markFailRow now j.id false (err.take 2000)
        (now + (backoffSeconds base factor J rand j.attempts).toNat) j,
      ?_, ?_, ?_, ?_, ?_, ?_, ?_⟩
    · rw [hjobs]; exact List.mem_map_of_mem _ hmem
    · simp [markFailRow]
    · simp [markFailRow]
    · simp [markFailRow]
    · intro _; constructor <;> simp [markFailRow]
    · intro h; exact absurd h (by omega)
    · intro k hk hkid
      rw [hjobs]
      have hfix : markFailRow now j.id false (err.take 2000)
          (now + (backoffSeconds base factor J rand j.attempts).toNat) k = k := by
        simp [markFailRow, hkid]
      exact hfix ▸ List.mem_map_of_mem _ hk

/-- Concrete data for the C2 witness: a claimed job, id 1, attempts 0. -/
def jC2 : Job :=
  { id := 1, folder := "X", image_path := "a.png", text_path := "a.txt",
    status := .processing, attempts := 0, last_error := none,
    priority := 0, available_at := 50, created_at := 50, updated_at := 60 }

def stC2 : Store := { jobs := [jC2], folders := [], nextId := 2 }

def rowC2 : ClaimedRow := rowOf jC2

/-- Witness for C2: failing the concrete claimed job at time 100 with
`maxAttempts = 3`. -/
theorem failJob_retry_semantics_witness :
    (jC2 ∈ stC2.jobs ∧ rowC2.id = jC2.id ∧ rowC2.attempts = jC2.attempts) ∧
    (∃ j' ∈ (workOneFail stC2 100 5 2 (1/5) (1/2) rowC2 "boom" 3).jobs,
      j'.id = jC2.id ∧
      j'.attempts = jC2.attempts + 1 ∧
      j'.last_error = some ("boom".take 2000) ∧
      (jC2.attempts + 1 < 3 →
        j'.status = .queued ∧
        j'.available_at = 100 + (backoffSeconds 5 2 (1/5) (1/2) jC2.attempts).toNat) ∧
      (3 ≤ jC2.attempts + 1 →
        j'.status = .failed ∧ j'.available_at = 100) ∧
      (∀ k ∈ stC2.jobs, k.id ≠ jC2.id →
        k ∈ (workOneFail stC2 100 5 2 (1/5) (1/2) rowC2 "boom" 3).jobs)) :=
  ⟨⟨by decide, rfl, rfl⟩,
   failJob_retry_semantics stC2 100 5 2 (1/5) (1/2) rowC2 "boom" 3 jC2
     (by decide) rfl rfl⟩

/-! ### C3: stale-job recovery -/

/-- C3: stale recovery (run at the start of every `claimJobs` call) maps
the job table row-wise; every processing row whose `updated_at` is at least
the staleness threshold old is reset to queued with `available_at = now` and
unchanged `attempts`, with the diagnostic note appended to `last_error`
newline-joined after any prior nonempty text; all other rows are unchanged. -/
theorem requeueStale_resets (st : Store) (now stale lim : Nat) :
    (requeueStaleJobs st now stale).1.jobs = st.jobs.map (requeueRow now stale) ∧
    (∀ j : Job, j.status = .processing → j.updated_at + stale ≤ now →
      (requeueRow now stale j).status = .queued ∧
      (requeueRow now stale j).available_at = now ∧
      (requeueRow now stale j).attempts = j.attempts ∧
      (j.last_error = none ∨ j.last_error = some "" →
        (requeueRow now stale j).last_error = some staleNote) ∧
      (∀ s, j.last_error = some s → s ≠ "" →
        (requeueRow now stale j).last_error = some (s ++ "\n" ++ staleNote))) ∧
    (∀ j : Job, ¬(j.status = .processing ∧ j.updated_at + stale ≤ now) →
      requeueRow now stale j = j) ∧
    claimJobs st now lim stale =
      claimLoop now (requeueStaleJobs st now stale).1
        (claimStmt (requeueStaleJobs st now stale).1 now lim) := by
  refine ⟨rfl, ?_, ?_, rfl⟩
  · intro j hst hold
    have hs : isStale now stale j = true := by
      simp [isStale, hst, hold]
    refine ⟨?_, ?_, ?_, ?_, ?_⟩
    · simp [requeueRow, hs]
    · simp [requeueRow, hs]
    · simp [requeueRow, hs]
    · intro hle
      rcases hle with h | h <;> simp [requeueRow, hs, appendStaleNote, h]
    · intro s hle hne
      simp [requeueRow, hs, appendStaleNote, hle, hne]
  · intro j hnot
    have hs : isStale now stale j = false := by
      simp [isStale]
      intro h1
      rcases Nat.lt_or_ge now (j.updated_at + stale) with h | h
      · exact h
      · exact absurd ⟨h1, h⟩ hnot
    exact requeueRow_of_not_stale now stale j hs

/-- Concrete data for the C3 witness: a processing job stuck since time 60
with prior error text, observed at time 1000 with a 15-minute threshold
window already exceeded. -/
def jC3 : Job :=
  { id := 4, folder := "Y", image_path := "b.png", text_path := "b.txt",
    status := .processing, attempts := 2, last_error := some "old",
    priority := 0, available_at := 0, created_at := 0, updated_at := 60 }

def stC3 : Store := { jobs := [jC3], folders := [], nextId := 5 }

/-- Witness for C3 on the concrete stuck job. -/
theorem requeueStale_resets_witness :
    (jC3.status = Status.processing ∧ jC3.updated_at + 900 ≤ 1000) ∧
    (requeueRow 1000 900 jC3).status = .queued ∧
    (requeueRow 1000 900 jC3).available_at = 1000 ∧
    (requeueRow 1000 900 jC3).attempts = jC3.attempts ∧
    (requeueRow 1000 900 jC3).last_error = some ("old" ++ "\n" ++ staleNote) :=
  ⟨⟨rfl, by decide⟩,
   ((requeueStale_resets stC3 1000 900 8).2.1 jC3 rfl (by decide)).1,
   ((requeueStale_resets stC3 1000 900 8).2.1 jC3 rfl (by decide)).2.1,
   ((requeueStale_resets stC3 1000 900 8).2.1 jC3 rfl (by decide)).2.2.1,
   ((requeueStale_resets stC3 1000 900 8).2.1 jC3 rfl (by decide)).2.2.2.2 "old" rfl
     (by decide)⟩

/-! ### C9: purge of old terminal jobs -/

/-- C9: `purgeOldJobs` deletes exactly the terminal (done or failed) jobs
old enough for the age threshold, keeps every other job, and returns the two
deleted-row counts; with age threshold 0 a job just marked done is removed
and its returned count is 1 (concrete scenario in the last conjunct). -/
theorem purgeOld_deletes_terminal (st : Store) (now days : Nat) :
    (purgeOldJobs st now days).1.jobs =
      st.jobs.filter (fun j =>
        !((j.status = Status.done || j.status = Status.failed) &&
          j.updated_at + days * 24 * 60 * 60 ≤ now)) ∧
    (purgeOldJobs st now days).2.1 =
      (st.jobs.filter (fun j =>
        j.status = Status.done && j.updated_at + days * 24 * 60 * 60 ≤ now)).length ∧
    (purgeOldJobs st now days).2.2 =
      (st.jobs.filter (fun j =>
        j.status = Status.failed && j.updated_at + days * 24 * 60 * 60 ≤ now)).length ∧
    ((purgeOldJobs (completeJob stC2 100 1) 100 0).1.jobs = [] ∧
     (purgeOldJobs (completeJob stC2 100 1) 100 0).2.1 = 1 ∧
     (purgeOldJobs (completeJob stC2 100 1) 100 0).2.2 = 0) := by
  refine ⟨?_, rfl, ?_, by decide, by decide, by decide⟩
  · show (st.jobs.filter _).filter _ = _
    rw [List.filter_filter]
    apply List.filter_congr
    intro j _
    cases hj : j.status <;> simp [purgeMatch, hj]
  · show ((st.jobs.filter _).filter _).length = _
    rw [List.filter_filter]
    congr 1
    apply List.filter_congr
    intro j _
    cases hj : j.status <;> simp [purgeMatch, hj]

/-- Witness for C9 (the theorem universals instantiated on the concrete
store of the scenario). -/
theorem purgeOld_deletes_terminal_witness :
    (purgeOldJobs (completeJob stC2 100 1) 100 0).1.jobs =
      (completeJob stC2 100 1).jobs.filter (fun j =>
        !((j.status = Status.done || j.status = Status.failed) &&
          j.updated_at + 0 * 24 * 60 * 60 ≤ 100)) ∧
    (purgeOldJobs (completeJob stC2 100 1) 100 0).2.1 =
      ((completeJob stC2 100 1).jobs.filter (fun j =>
        j.status = Status.done && j.updated_at + 0 * 24 * 60 * 60 ≤ 100)).length ∧
    (purgeOldJobs (completeJob stC2 100 1) 100 0).2.2 =
      ((completeJob stC2 100 1).jobs.filter (fun j =>
        j.status = Status.failed && j.updated_at + 0 * 24 * 60 * 60 ≤ 100)).length ∧
    ((purgeOldJobs (completeJob stC2 100 1) 100 0).1.jobs = [] ∧
     (purgeOldJobs (completeJob stC2 100 1) 100 0).2.1 = 1 ∧
     (purgeOldJobs (completeJob stC2 100 1) 100 0).2.2 = 0) :=
  purgeOld_deletes_terminal (completeJob stC2 100 1) 100 0

/-! ### C7: per-folder serial allocation -/

/-- N successive `nextSerial` calls for one folder, returning the final store
and the list of returned serials in call order. -/
def serialRun (st : Store) (f : String) : Nat → Store × List Nat
  | 0 => (st, [])
  | n + 1 =>
    let r := nextSerial st f
    let rest := serialRun r.1 f n
    (rest.1, r.2 :: rest.2)

theorem getSerial_upsert_self (fs : List (String × Nat)) (f : String) :
    getSerial (upsertFolder fs f) f = some ((getSerial fs f).getD 0) := by
  unfold upsertFolder
  by_cases h : fs.any (fun p => p.1 = f)
  · rw [if_pos h]
    have hsome : (fs.find? (fun p => p.1 = f)).isSome := by
      rw [List.find?_isSome]
      obtain ⟨p, hp, hpf⟩ := List.any_eq_true.mp h
      exact ⟨p, hp, hpf⟩
    obtain ⟨q, hq⟩ := Option.isSome_iff_exists.mp hsome
    simp [getSerial, hq]
  · rw [if_neg h]
    have hnone : fs.find? (fun p => p.1 = f) = none := by
      rw [List.find?_eq_none]
      intro x hx hpx
      exact h (List.any_eq_true.mpr ⟨x, hx, hpx⟩)
    simp [getSerial, List.find?_append, hnone]

theorem getSerial_inc_self (fs : List (String × Nat)) (f : String) :
    getSerial (incSerial fs f) f = (getSerial fs f).map (· + 1) := by
  unfold getSerial incSerial
  rw [List.find?_map]
  have hpred : ((fun p : String × Nat => decide (p.1 = f)) ∘ fun p =>
      if p.1 = f then (p.1, p.2 + 1) else p) =
      fun p : String × Nat => decide (p.1 = f) := by
    funext p
    by_cases hp : p.1 = f <;> simp [hp]
  rw [hpred]
  cases hfind : fs.find? (fun p => p.1 = f) with
  | none => simp
  | some q =>
    have hq : q.1 = f := by simpa using List.find?_some hfind
    simp [hq]

theorem getSerial_inc_other (fs : List (String × Nat)) (f g : String)
    (hne : g ≠ f) : getSerial (incSerial fs f) g = getSerial fs g := by
  unfold getSerial incSerial
  rw [List.find?_map]
  have hpred : ((fun p : String × Nat => decide (p.1 = g)) ∘ fun p =>
      if p.1 = f then (p.1, p.2 + 1) else p) =
      fun p : String × Nat => decide (p.1 = g) := by
    funext p
    by_cases hp : p.1 = f <;> simp [hp]
  rw [hpred]
  cases hfind : fs.find? (fun p => p.1 = g) with
  | none => simp
  | some q =>
    have hq : q.1 = g := by simpa using List.find?_some hfind
    have hqf : ¬ q.1 = f := by rw [hq]; exact hne
    simp [hqf]

theorem getSerial_upsert_other (fs : List (String × Nat)) (f g : String)
    (hne : g ≠ f) : getSerial (upsertFolder fs f) g = getSerial fs g := by
  unfold upsertFolder
  split
  · rfl
  · unfold getSerial
    rw [List.find?_append]
    have hone : ([(f, 0)].find? (fun p : String × Nat => p.1 = g)) = none := by
      simp only [List.find?]
      rw [decide_eq_false (Ne.symm hne)]
    rw [hone]
    cases fs.find? (fun p : String × Nat => p.1 = g) <;> simp

theorem nextSerial_val (st : Store) (f : String) :
    (nextSerial st f).2 = (getSerial st.folders f).getD 0 + 1 := by
  show (getSerial (incSerial (upsertFolder st.folders f) f) f).getD 0 = _
  rw [getSerial_inc_self, getSerial_upsert_self]
  rfl

theorem nextSerial_getSerial (st : Store) (f : String) :
    getSerial (nextSerial st f).1.folders f =
      some ((getSerial st.folders f).getD 0 + 1) := by
  show getSerial (incSerial (upsertFolder st.folders f) f) f = _
  rw [getSerial_inc_self, getSerial_upsert_self]
  rfl

theorem serialRun_values (st : Store) (f : String) (N : Nat) :
    (serialRun st f N).2 =
      (List.range N).map (fun k => (getSerial st.folders f).getD 0 + 1 + k) := by
  induction N generalizing st with
  | zero => rfl
  | succ n ih =>
    show (nextSerial st f).2 :: (serialRun (nextSerial st f).1 f n).2 = _
    rw [ih, nextSerial_val, nextSerial_getSerial, List.range_succ_eq_map,
        List.map_cons, List.map_map]
    simp only [Option.getD_some]
    congr 1
    apply List.map_congr_left
    intro k _
    simp only [Function.comp_apply]
    omega

/-- C7: `nextSerial` returns the incremented counter (treating a missing
counter row as 0), persists exactly that value for the folder, leaves every
other folder counter and the job table unchanged, returns 1 on the first call
for a folder, and N successive calls return the consecutive run of N integers
following the previous counter value. -/
theorem nextSerial_consecutive (st : Store) (f : String) :
    (nextSerial st f).2 = (getSerial st.folders f).getD 0 + 1 ∧
    getSerial (nextSerial st f).1.folders f =
      some ((getSerial st.folders f).getD 0 + 1) ∧
    (∀ g : String, g ≠ f →
      getSerial (nextSerial st f).1.folders g = getSerial st.folders g) ∧
    (nextSerial st f).1.jobs = st.jobs ∧
    (getSerial st.folders f = none → (nextSerial st f).2 = 1) ∧
    (∀ N : Nat, (serialRun st f N).2 =
      (List.range N).map (fun k => (getSerial st.folders f).getD 0 + 1 + k)) := by
  refine ⟨nextSerial_val st f, nextSerial_getSerial st f, ?_, rfl, ?_, serialRun_values st f⟩
  · intro g hg
    show getSerial (incSerial (upsertFolder st.folders f) f) g = _
    rw [getSerial_inc_other _ _ _ hg, getSerial_upsert_other _ _ _ hg]
  · intro hnone
    rw [nextSerial_val, hnone]
    rfl

/-- Concrete store for the C7 witness: folder X has counter 5. -/
def stC7 : Store := { jobs := [], folders := [("X", 5)], nextId := 1 }

/-- Witness for C7: on the concrete store, the next serial for X is 6, it is
persisted, folder Y stays absent, a fresh folder starts at 1, and three
successive calls return 6, 7, 8. -/
theorem nextSerial_consecutive_witness :
    (nextSerial stC7 "X").2 = 6 ∧
    getSerial (nextSerial stC7 "X").1.folders "X" = some 6 ∧
    getSerial (nextSerial stC7 "X").1.folders "Y" = getSerial stC7.folders "Y" ∧
    (nextSerial stC7 "X").1.jobs = stC7.jobs ∧
    (nextSerial stC7 "Z").2 = 1 ∧
    (serialRun stC7 "X" 3).2 = [6, 7, 8] :=
  ⟨((nextSerial_consecutive stC7 "X").1).trans (by decide),
   ((nextSerial_consecutive stC7 "X").2.1).trans (by decide),
   (nextSerial_consecutive stC7 "X").2.2.1 "Y" (by decide),
   (nextSerial_consecutive stC7 "X").2.2.2.1,
   (nextSerial_consecutive stC7 "Z").2.2.2.2.1 (by decide),
   ((nextSerial_consecutive stC7 "X").2.2.2.2.2 3).trans (by decide)⟩

/-! ### C8: availableAt at the moment a job enters the queued status -/

/-- The store mutations exported by db.js, as one operation type, for
trace-level invariants. -/
inductive Op where
  | enqueue (folder image_path text_path : String) (priority : Int) (delay : Nat)
  | claim (limit stale : Nat)
  | complete (id : Nat)
  | fail (id attempts : Nat) (err : String) (maxAttempts backoff : Nat)
  | purge (days : Nat)

/-- Dispatch one store operation at time `now`. -/
def applyOp (st : Store) (now : Nat) : Op → Store
  | .enqueue f ip tp p d => enqueueJob st now f ip tp p d
  | .claim lim stale => (claimJobs st now lim stale).1
  | .complete id => completeJob st now id
  | .fail id a err mx b => failJob st now id a err mx b
  | .purge days => (purgeOldJobs st now days).1

theorem mem_requeue_cases (st : Store) (now stale : Nat) (j' : Job)
    (h : j' ∈ (requeueStaleJobs st now stale).1.jobs) :
    j' ∈ st.jobs ∨ (j'.status = .queued ∧ j'.available_at = now) := by
  obtain ⟨j, hj, rfl⟩ := List.mem_map.mp h
  unfold requeueRow
  split
  · right; exact ⟨rfl, rfl⟩
  · left; exact hj

theorem mem_markProcessing_cases (st : Store) (now id : Nat) (j' : Job)
    (h : j' ∈ (markProcessing st now id).1.jobs) :
    j' ∈ st.jobs ∨ j'.status = .processing := by
  obtain ⟨j, hj, rfl⟩ := List.mem_map.mp h
  unfold markProcessingRow
  split
  · right; rfl
  · left; exact hj

theorem mem_claimLoop_cases (now : Nat) (rows : List ClaimedRow) (st : Store)
    (j' : Job) (h : j' ∈ (claimLoop now st rows).1.jobs) :
    j' ∈ st.jobs ∨ j'.status = .processing := by
  induction rows generalizing st with
  | nil => exact Or.inl h
  | cons r rs ih =>
    rcases ih (markProcessing st now r.id).1 h with h1 | h1
    · exact mem_markProcessing_cases st now r.id j' h1
    · exact Or.inr h1

theorem failJob_eq_markFail (st : Store) (now id att : Nat) (err : String)
    (mx b : Nat) :
    failJob st now id att err mx b =
      markFail st now id (decide (att + 1 ≥ mx)) (err.take 2000)
        (if decide (att + 1 ≥ mx) = true then now else now + b) := rfl

theorem mem_markFail_cases (st : Store) (now id : Nat) (final : Bool)
    (err : String) (nt : Nat) (j' : Job)
    (h : j' ∈ (markFail st now id final err nt).jobs) :
    j' ∈ st.jobs ∨
    (j'.id = id ∧
     j'.status = (if final then Status.failed else Status.queued) ∧
     j'.available_at = nt) := by
  obtain ⟨j, hj, rfl⟩ := List.mem_map.mp h
  unfold markFailRow
  split
  · next hc => right; exact ⟨hc, rfl, rfl⟩
  · left; exact hj

theorem mem_markFail_of_id (st : Store) (now id : Nat) (final : Bool)
    (err : String) (nt : Nat) (j' : Job)
    (h : j' ∈ (markFail st now id final err nt).jobs) (hid : j'.id = id) :
    j'.status = (if final then Status.failed else Status.queued) ∧
    j'.available_at = nt := by
  obtain ⟨j, hj, rfl⟩ := List.mem_map.mp h
  by_cases hc : j.id = id
  · simp [markFailRow, hc]
  · rw [markFailRow, if_neg hc] at hid ⊢
    exact absurd hid hc

/-- C8: whenever a store operation writes a row with the queued status
(a row not present before the operation), the written `available_at` is at
least the current time; specifically, enqueue inserts a queued row with
`available_at = now + delay`, a non-final failure rewrites every row of the
failed id as queued with `available_at = now + backoff`, and stale recovery
rewrites stale rows as queued with `available_at = now`. -/
theorem availableAt_ge_queue_entry :
    (∀ (st : Store) (now : Nat) (op : Op) (j' : Job),
      j' ∈ (applyOp st now op).jobs → j'.status = .queued → j' ∉ st.jobs →
      now ≤ j'.available_at) ∧
    (∀ (st : Store) (now : Nat) (f ip tp : String) (p : Int) (d : Nat),
      ∃ jn : Job, (enqueueJob st now f ip tp p d).jobs = st.jobs ++ [jn] ∧
        jn.status = .queued ∧ jn.available_at = now + d) ∧
    (∀ (st : Store) (now id att : Nat) (err : String) (mx b : Nat),
      att + 1 < mx →
      ∀ j' ∈ (failJob st now id att err mx b).jobs, j'.id = id →
        j'.status = .queued ∧ j'.available_at = now + b) ∧
    (∀ (st : Store) (now stale : Nat) (j' : Job),
      j' ∈ (requeueStaleJobs st now stale).1.jobs → j'.status = .queued →
      j' ∉ st.jobs → j'.available_at = now) := by
  refine ⟨?_, ?_, ?_, ?_⟩
  · intro st now op j' hmem hq hnot
    cases op with
    | enqueue f ip tp p d =>
      rcases List.mem_append.mp hmem with h | h
      · exact absurd h hnot
      · rcases List.mem_singleton.mp h with rfl
        exact Nat.le_add_right now d
    | claim lim stale =>
      rcases mem_claimLoop_cases now
          (claimStmt (requeueStaleJobs st now stale).1 now lim)
          (requeueStaleJobs st now stale).1 j' hmem with h1 | h1
      · rcases mem_requeue_cases st now stale j' h1 with h2 | h2
        · exact absurd h2 hnot
        · exact le_of_eq h2.2.symm
      · rw [hq] at h1
        exact absurd h1 (by decide)
    | complete id =>
      obtain ⟨j, hj, rfl⟩ := List.mem_map.mp hmem
      by_cases hc : j.id = id
      · rw [show markDoneRow now id j =
            { j with status := .done, updated_at := now, last_error := none }
            from if_pos hc] at hq
        exact absurd hq (by simp)
      · rw [show markDoneRow now id j = j from if_neg hc] at hnot
        exact absurd hj hnot
    | fail id att err mx b =>
      rw [show applyOp st now (Op.fail id att err mx b) =
          markFail st now id (decide (att + 1 ≥ mx)) (err.take 2000)
            (if decide (att + 1 ≥ mx) = true then now else now + b) from rfl] at hmem
      rcases mem_markFail_cases _ _ _ _ _ _ _ hmem with h1 | ⟨_, _, ha⟩
      · exact absurd h1 hnot
      · rw [ha]
        split
        · exact Nat.le_refl now
        · exact Nat.le_add_right now b
    | purge days =>
      have h1 : j' ∈ st.jobs := by
        have h2 := (List.mem_filter.mp hmem).1
        exact (List.mem_filter.mp h2).1
      exact absurd h1 hnot
  · intro st now f ip tp p d
    exact ⟨_, rfl, rfl, rfl⟩
  · intro st now id att err mx b hlt j' hmem hid
    have hfe : decide (att + 1 ≥ mx) = false := decide_eq_false (by omega)
    rw [failJob_eq_markFail] at hmem
    have h := mem_markFail_of_id _ _ _ _ _ _ _ hmem hid
    rw [hfe] at h
    simpa using h
  · intro st now stale j' hmem hq hnot
    rcases mem_requeue_cases st now stale j' hmem with h | h
    · exact absurd h hnot
    · exact h.2

/-- Concrete job for the C8 witness: enqueued at time 10 with delay 3. -/
def jC8 : Job :=
  { id := 1, folder := "X", image_path := "i", text_path := "t",
    status := .queued, attempts := 0, last_error := none, priority := 0,
    available_at := 13, created_at := 10, updated_at := 10 }

/-- Witness for C8: enqueueing into the empty store at time 10 with delay 3
yields a queued row with `available_at = 13 ≥ 10`. -/
theorem availableAt_ge_queue_entry_witness :
    (jC8 ∈ (applyOp ⟨[], [], 1⟩ 10 (Op.enqueue "X" "i" "t" 0 3)).jobs ∧
     jC8.status = Status.queued ∧ jC8 ∉ (⟨[], [], 1⟩ : Store).jobs) ∧
    10 ≤ jC8.available_at :=
  ⟨⟨by decide, rfl, by decide⟩,
   availableAt_ge_queue_entry.1 ⟨[], [], 1⟩ 10 (Op.enqueue "X" "i" "t" 0 3) jC8
     (by decide) rfl (by decide)⟩

/-! ### C6: terminal statuses under the store operations -/

theorem markProcessing_preserves_not_queued (st : Store) (now id : Nat)
    (j : Job) (hmem : j ∈ st.jobs) (h : j.status ≠ .queued) :
    j ∈ (markProcessing st now id).1.jobs := by
  have hmap := List.mem_map_of_mem (markProcessingRow now id) hmem
  rwa [markProcessingRow_of_not_queued now id j h] at hmap

theorem claimLoop_preserves_not_queued (now : Nat) (rows : List ClaimedRow)
    (st : Store) (j : Job) (hmem : j ∈ st.jobs) (h : j.status ≠ .queued) :
    j ∈ (claimLoop now st rows).1.jobs := by
  induction rows generalizing st with
  | nil => exact hmem
  | cons r rs ih =>
    exact ih _ (markProcessing_preserves_not_queued st now r.id j hmem h)

/-- Concrete job for C6: it has exhausted its attempts and is failed. -/
def jC6 : Job :=
  { id := 1, folder := "X", image_path := "i", text_path := "t",
    status := .failed, attempts := 3, last_error := some "boom",
    priority := 0, available_at := 90, created_at := 50, updated_at := 90 }

def stC6 : Store := { jobs := [jC6], folders := [], nextId := 2 }

/-- Counterexample to C6 as stated: `markFail` and `markDone` update their
row unconditionally on status, so on a store whose only job is failed,
`failJob` with a small attempt count moves it back to queued, and
`completeJob` moves it to done — both are store operations transitioning a
terminal job. -/
theorem terminal_statuses_counterexample :
    stC6.jobs.map Job.status = [Status.failed] ∧
    (failJob stC6 100 1 0 "oops" 3 7).jobs.map Job.status = [Status.queued] ∧
    (completeJob stC6 100 1).jobs.map Job.status = [Status.done] := by
  refine ⟨rfl, ?_, rfl⟩
  decide

/-- C6 amended: the status-guarded operations never transition a
terminal job: a done or failed row is left exactly as it is by
`markProcessing` (guard `status = queued`), by stale recovery (guard
`status = processing`), and hence by the whole `claimJobs` transaction; the
unguarded `markDone`/`markFail` row updates, by contrast, can move a
terminal job when invoked with its id (see the counterexample). -/
theorem terminal_guarded_ops (st : Store) (now id lim stale : Nat) (j : Job)
    (hmem : j ∈ st.jobs) (hterm : j.status = .done ∨ j.status = .failed) :
    markProcessingRow now id j = j ∧
    requeueRow now stale j = j ∧
    j ∈ (markProcessing st now id).1.jobs ∧
    j ∈ (requeueStaleJobs st now stale).1.jobs ∧
    j ∈ (claimJobs st now lim stale).1.jobs := by
  have hnq : j.status ≠ .queued := by
    rcases hterm with h | h <;> simp [h]
  have hnp : isStale now stale j = false := by
    rcases hterm with h | h <;> simp [isStale, h]
  have hfix : requeueRow now stale j = j := requeueRow_of_not_stale now stale j hnp
  have hst0 : j ∈ (requeueStaleJobs st now stale).1.jobs := by
    have hmap := List.mem_map_of_mem (requeueRow now stale) hmem
    rwa [hfix] at hmap
  refine ⟨markProcessingRow_of_not_queued now id j hnq, hfix,
    markProcessing_preserves_not_queued st now id j hmem hnq, hst0, ?_⟩
  exact claimLoop_preserves_not_queued now _ _ j hst0 hnq

/-- Witness for the amended C6 on the concrete failed job of `stC6`. -/
theorem terminal_guarded_ops_witness :
    (jC6 ∈ stC6.jobs ∧ jC6.status = .failed) ∧
    (markProcessingRow 100 1 jC6 = jC6 ∧
     requeueRow 100 900 jC6 = jC6 ∧
     jC6 ∈ (markProcessing stC6 100 1).1.jobs ∧
     jC6 ∈ (requeueStaleJobs stC6 100 900).1.jobs ∧
     jC6 ∈ (claimJobs stC6 100 4 900).1.jobs) :=
  ⟨⟨by decide, rfl⟩,
   terminal_guarded_ops stC6 100 1 4 900 jC6 (by decide) (Or.inr rfl)⟩

/-! ### C1: mutual exclusion of claims -/

theorem requeue_ids (st : Store) (now stale : Nat) :
    (requeueStaleJobs st now stale).1.jobs.map Job.id = st.jobs.map Job.id := by
  rw [show (requeueStaleJobs st now stale).1.jobs
      = st.jobs.map (requeueRow now stale) from rfl, List.map_map]
  exact List.map_congr_left fun j _ => requeueRow_id_eq now stale j

theorem markProcessing_ids (st : Store) (now id : Nat) :
    (markProcessing st now id).1.jobs.map Job.id = st.jobs.map Job.id := by
  rw [show (markProcessing st now id).1.jobs
      = st.jobs.map (markProcessingRow now id) from rfl, List.map_map]
  exact List.map_congr_left fun j _ => markProcessingRow_id_eq now id j

theorem claimLoop_ids (now : Nat) (rows : List ClaimedRow) (st : Store) :
    (claimLoop now st rows).1.jobs.map Job.id = st.jobs.map Job.id := by
  induction rows generalizing st with
  | nil => rfl
  | cons r rs ih =>
    rw [show (claimLoop now st (r :: rs)).1
        = (claimLoop now (markProcessing st now r.id).1 rs).1 from rfl,
      ih, markProcessing_ids]

theorem claimJobs_ids (st : Store) (now lim stale : Nat) :
    (claimJobs st now lim stale).1.jobs.map Job.id = st.jobs.map Job.id := by
  rw [show (claimJobs st now lim stale).1
      = (claimLoop now (requeueStaleJobs st now stale).1
          (claimStmt (requeueStaleJobs st now stale).1 now lim)).1 from rfl,
    claimLoop_ids, requeue_ids]

theorem claimLoop_claimed_processing (now : Nat) (rows : List ClaimedRow)
    (st : Store) (r : ClaimedRow) (hr : r ∈ (claimLoop now st rows).2) :
    ∃ j' ∈ (claimLoop now st rows).1.jobs,
      j'.id = r.id ∧ j'.status = .processing ∧ j'.updated_at = now := by
  induction rows generalizing st with
  | nil => cases hr
  | cons q qs ih =>
    rw [show (claimLoop now st (q :: qs)).2
        = (if (markProcessing st now q.id).2 = 1
           then q :: (claimLoop now (markProcessing st now q.id).1 qs).2
           else (claimLoop now (markProcessing st now q.id).1 qs).2) from rfl] at hr
    by_cases hc : (markProcessing st now q.id).2 = 1
    · rw [if_pos hc] at hr
      rcases List.mem_cons.mp hr with rfl | hr'
      · have hpos : 0 < (st.jobs.filter
            (fun j => j.id = r.id && j.status = Status.queued)).length := by
          rw [show (markProcessing st now r.id).2 = (st.jobs.filter
              (fun j => j.id = r.id && j.status = Status.queued)).length from rfl] at hc
          omega
        obtain ⟨j, hjmem⟩ := List.exists_mem_of_length_pos hpos
        have hj := List.mem_filter.mp hjmem
        obtain ⟨hid, hst⟩ : j.id = r.id ∧ j.status = Status.queued := by
          simpa using hj.2
        refine ⟨{ j with status := .processing, updated_at := now }, ?_, hid, rfl, rfl⟩
        have hmap := List.mem_map_of_mem (markProcessingRow now r.id) hj.1
        rw [show markProcessingRow now r.id j
            = { j with status := .processing, updated_at := now } from
            by simp [markProcessingRow, hid, hst]] at hmap
        exact claimLoop_preserves_not_queued now qs (markProcessing st now r.id).1
          { j with status := .processing, updated_at := now } hmap (by simp)
      · exact ih _ hr'
    · rw [if_neg hc] at hr
      exact ih _ hr

theorem claimLoop_claimed_sublist (now : Nat) (rows : List ClaimedRow)
    (st : Store) : (claimLoop now st rows).2.Sublist rows := by
  induction rows generalizing st with
  | nil => exact List.Sublist.refl []
  | cons q qs ih =>
    rw [show (claimLoop now st (q :: qs)).2
        = (if (markProcessing st now q.id).2 = 1
           then q :: (claimLoop now (markProcessing st now q.id).1 qs).2
           else (claimLoop now (markProcessing st now q.id).1 qs).2) from rfl]
    split
    · exact List.Sublist.cons₂ q (ih _)
    · exact List.Sublist.cons q (ih _)

theorem claimStmt_mem_eligible (st : Store) (now lim : Nat) (r : ClaimedRow)
    (hr : r ∈ claimStmt st now lim) :
    ∃ j ∈ st.jobs, j.status = .queued ∧ j.available_at ≤ now ∧ rowOf j = r := by
  obtain ⟨j, hj, rfl⟩ := List.mem_map.mp hr
  have hj1 : j ∈ (st.jobs.filter (eligible now)).insertionSort claimOrder :=
    List.take_subset _ _ hj
  have hj2 : j ∈ st.jobs.filter (eligible now) :=
    (List.perm_insertionSort claimOrder _).subset hj1
  have hj3 := List.mem_filter.mp hj2
  obtain ⟨hq, hav⟩ : j.status = Status.queued ∧ j.available_at ≤ now := by
    simpa [eligible] using hj3.2
  exact ⟨j, hj3.1, hq, hav, rfl⟩

/-- C1: `markProcessing` leaves any non-queued row unchanged; when no
queued row carries the requested id it changes nothing and reports zero
changes; and (with unique job ids) two successive `claimJobs` calls, the
second occurring before the staleness threshold can elapse, never both
return the same job id. -/
theorem claim_mutual_exclusion :
    (∀ (now id : Nat) (j : Job), j.status ≠ .queued →
      markProcessingRow now id j = j) ∧
    (∀ (st : Store) (now id : Nat),
      (∀ j ∈ st.jobs, j.id = id → j.status ≠ .queued) →
      markProcessing st now id = (st, 0)) ∧
    (∀ (st : Store) (now1 now2 lim1 lim2 stale : Nat),
      (st.jobs.map Job.id).Nodup → now1 ≤ now2 → now2 < now1 + stale →
      ∀ r1 ∈ (claimJobs st now1 lim1 stale).2,
      ∀ r2 ∈ (claimJobs (claimJobs st now1 lim1 stale).1 now2 lim2 stale).2,
        r1.id ≠ r2.id) := by
  refine ⟨fun now id j h => markProcessingRow_of_not_queued now id j h, ?_, ?_⟩
  · intro st now id h
    have h1 : ∀ j ∈ st.jobs, markProcessingRow now id j = j := by
      intro j hj
      by_cases hc : j.id = id
      · exact markProcessingRow_of_not_queued now id j (h j hj hc)
      · simp [markProcessingRow, hc]
    have h2 : (st.jobs.filter
        (fun j => j.id = id && j.status = Status.queued)).length = 0 := by
      rw [List.length_eq_zero, List.filter_eq_nil_iff]
      intro j hj
      simp only [Bool.and_eq_true, decide_eq_true_eq, not_and]
      exact fun hid => h j hj hid
    show ({ st with jobs := st.jobs.map (markProcessingRow now id) },
      (st.jobs.filter (fun j => j.id = id && j.status = Status.queued)).length)
      = (st, 0)
    rw [List.map_congr_left h1, List.map_id', h2]
  · intro st now1 now2 lim1 lim2 stale hnd h12 hlt r1 hr1 r2 hr2 heq
    obtain ⟨j1, hj1mem, hj1id, hj1proc, hj1upd⟩ :=
      claimLoop_claimed_processing now1 _ _ r1 hr1
    have hr2' : r2 ∈ claimStmt
        (requeueStaleJobs (claimJobs st now1 lim1 stale).1 now2 stale).1
        now2 lim2 :=
      (claimLoop_claimed_sublist now2 _ _).subset hr2
    obtain ⟨j2, hj2mem, hj2q, hj2av, hj2row⟩ :=
      claimStmt_mem_eligible _ _ _ _ hr2'
    have hj1stale : isStale now2 stale j1 = false := by
      simp [isStale, hj1proc, hj1upd]
      omega
    have hj1' : j1 ∈ (requeueStaleJobs (claimJobs st now1 lim1 stale).1
        now2 stale).1.jobs := by
      have hmap := List.mem_map_of_mem (requeueRow now2 stale) hj1mem
      rwa [requeueRow_of_not_stale now2 stale j1 hj1stale] at hmap
    have hnd2 : ((requeueStaleJobs (claimJobs st now1 lim1 stale).1
        now2 stale).1.jobs.map Job.id).Nodup := by
      rw [requeue_ids, claimJobs_ids]
      exact hnd
    have hid2 : r2.id = j2.id := by rw [← hj2row]; rfl
    have hid12 : j1.id = j2.id := by rw [hj1id, heq, hid2]
    have hje : j1 = j2 := List.inj_on_of_nodup_map hnd2 hj1' hj2mem hid12
    rw [hje, hj2q] at hj1proc
    exact absurd hj1proc (by simp)

/-- Concrete job for the C1 witness: already processing. -/
def jC1 : Job :=
  { id := 1, folder := "X", image_path := "i", text_path := "t",
    status := .processing, attempts := 0, last_error := none, priority := 0,
    available_at := 5, created_at := 5, updated_at := 7 }

def stC1 : Store := { jobs := [jC1], folders := [], nextId := 2 }

/-- Witness for C1: a second attempt on the already-processing job of `stC1`
finds no queued row and changes zero rows. -/
theorem claim_mutual_exclusion_witness :
    (∀ j ∈ stC1.jobs, j.id = 1 → j.status ≠ .queued) ∧
    markProcessing stC1 8 1 = (stC1, 0) :=
  ⟨by decide, claim_mutual_exclusion.2.1 stC1 8 1 (by decide)⟩

/-! ### C4: candidate selection and ordering -/

theorem claimLE_iff (a b : Job) : claimLE a b = true ↔
    (b.priority < a.priority ∨
     (a.priority = b.priority ∧
      (a.available_at < b.available_at ∨
       (a.available_at = b.available_at ∧ a.id ≤ b.id)))) := by
  unfold claimLE
  by_cases hp : a.priority = b.priority
  · rw [if_pos hp]
    by_cases hav : a.available_at = b.available_at
    · rw [if_pos hav]
      simp [hp, hav]
    · rw [if_neg hav]
      simp [hp, hav]
      omega
  · rw [if_neg hp]
    simp [hp]
    omega

theorem claimLE_trans (a b c : Job) (h1 : claimLE a b) (h2 : claimLE b c) :
    claimLE a c := by
  rw [claimLE_iff] at h1 h2 ⊢
  omega

theorem claimLE_total (a b : Job) : claimLE a b || claimLE b a := by
  rw [Bool.or_eq_true, claimLE_iff, claimLE_iff]
  omega

instance : IsTrans Job claimOrder :=
  ⟨fun a b c h1 h2 => claimLE_trans a b c h1 h2⟩

instance : IsTotal Job claimOrder :=
  ⟨fun a b => by
    have h := claimLE_total a b
    rw [Bool.or_eq_true] at h
    exact h⟩

/-- Concrete store for the C4 scenario: two jobs enqueued in folder X at
time 100, with priorities 5 and 1 (ids 1 and 2). -/
def stC4 : Store :=
  enqueueJob (enqueueJob ⟨[], [], 1⟩ 100 "X" "a.png" "a.txt" 5 0)
    100 "X" "b.png" "b.txt" 1 0

/-- C4: every row returned by `claimJobs` comes from a job that was
queued and available in the post-recovery table; at most `limit` rows are
returned; the candidate selection is sorted by priority descending, then
`available_at` ascending, then id ascending; and on the concrete two-job
store, claiming one job returns the priority-5 job. -/
theorem claim_order_priority (st : Store) (now lim stale : Nat) :
    (∀ r ∈ (claimJobs st now lim stale).2,
      ∃ j ∈ (requeueStaleJobs st now stale).1.jobs,
        j.status = .queued ∧ j.available_at ≤ now ∧ rowOf j = r) ∧
    (claimJobs st now lim stale).2.length ≤ lim ∧
    (claimSelect st now lim).Pairwise claimOrder ∧
    ((claimJobs stC4 100 1 900).2.map ClaimedRow.id = [1] ∧
     stC4.jobs.map (fun j => (j.id, j.priority)) = [(1, 5), (2, 1)]) := by
  refine ⟨?_, ?_, ?_, by decide, by decide⟩
  · intro r hr
    exact claimStmt_mem_eligible _ _ _ _
      ((claimLoop_claimed_sublist now _ _).subset hr)
  · calc (claimJobs st now lim stale).2.length
        ≤ (claimStmt (requeueStaleJobs st now stale).1 now lim).length :=
          (claimLoop_claimed_sublist now _ _).length_le
      _ = (claimSelect (requeueStaleJobs st now stale).1 now lim).length :=
          List.length_map _ _
      _ ≤ lim := List.length_take_le _ _
  · exact List.Pairwise.sublist (List.take_sublist _ _)
      (List.sorted_insertionSort claimOrder (st.jobs.filter (eligible now)))

/-- Witness for C4 on the concrete two-priority store. -/
theorem claim_order_priority_witness :
    (claimJobs stC4 100 1 900).2.length ≤ 1 ∧
    (claimJobs stC4 100 1 900).2.map ClaimedRow.id = [1] :=
  ⟨(claim_order_priority stC4 100 1 900).2.1,
   (claim_order_priority stC4 100 1 900).2.2.2.1⟩

/-! ### C10: a stale job is claimable in the very same claim call -/

theorem mem_take_of_few_preceding :
    ∀ (S : List Job) (lim : Nat) (x : Job),
      S.Pairwise claimOrder → S.Nodup → x ∈ S →
      (S.filter (fun y => claimLE y x && !(decide (y = x)))).length < lim →
      x ∈ S.take lim
  | [], _, x, _, _, hx, _ => absurd hx (List.not_mem_nil x)
  | a :: T, lim, x, hsort, hnd, hx, hfew => by
    rcases List.mem_cons.mp hx with rfl | hxT
    · cases lim with
      | zero => exact absurd hfew (Nat.not_lt_zero _)
      | succ n => exact List.mem_cons_self _ _
    · have hax : claimLE a x = true := (List.pairwise_cons.mp hsort).1 x hxT
      have hane : ¬(a = x) := by
        rintro rfl
        exact (List.nodup_cons.mp hnd).1 hxT
      have hfa : (claimLE a x && !(decide (a = x))) = true := by
        simp [hax, hane]
      rw [List.filter_cons, if_pos hfa, List.length_cons] at hfew
      cases lim with
      | zero => exact absurd hfew (Nat.not_lt_zero _)
      | succ n =>
        rw [List.take_succ_cons]
        exact List.mem_cons_of_mem a
          (mem_take_of_few_preceding T n x (List.Pairwise.of_cons hsort)
            (List.nodup_cons.mp hnd).2 hxT (Nat.lt_of_succ_lt_succ hfew))

theorem nodup_filter_length_one {p : Job → Bool} {l : List Job} {c : Job}
    (hnd : l.Nodup) (hc : c ∈ l) (hpc : p c = true)
    (huniq : ∀ x ∈ l, p x = true → x = c) :
    (l.filter p).length = 1 := by
  have hnde : (l.filter p).Nodup := hnd.filter p
  have hcf : c ∈ l.filter p := List.mem_filter.mpr ⟨hc, hpc⟩
  have hall : ∀ x ∈ l.filter p, x = c := fun x hx =>
    huniq x (List.mem_filter.mp hx).1 (List.mem_filter.mp hx).2
  rcases hfl : l.filter p with _ | ⟨a, rest⟩
  · rw [hfl] at hcf
    exact absurd hcf (List.not_mem_nil c)
  · rw [hfl] at hnde hall
    cases rest with
    | nil => rfl
    | cons y ys =>
      have hay : a = c := hall a (List.mem_cons_self _ _)
      have hyy : y = c := hall y (List.mem_cons_of_mem _ (List.mem_cons_self _ _))
      have hnin : a ∉ y :: ys := (List.nodup_cons.mp hnde).1
      exact absurd (by rw [hay, ← hyy]; exact List.mem_cons_self y ys) hnin

theorem claimLoop_all (now : Nat) :
    ∀ (C : List Job) (st : Store),
      (st.jobs.map Job.id).Nodup →
      (∀ c ∈ C, c ∈ st.jobs ∧ c.status = .queued) →
      (C.map Job.id).Nodup →
      (claimLoop now st (C.map rowOf)).2 = C.map rowOf
  | [], _, _, _, _ => rfl
  | c :: C', st, hnd, hmem, hcnd => by
    rw [List.map_cons] at hcnd
    have hcin := (hmem c (List.mem_cons_self _ _)).1
    have hcq := (hmem c (List.mem_cons_self _ _)).2
    have hjnd : st.jobs.Nodup := List.Nodup.of_map _ hnd
    have hch : (markProcessing st now c.id).2 = 1 := by
      show (st.jobs.filter (fun j => j.id = c.id && j.status = Status.queued)).length = 1
      apply nodup_filter_length_one hjnd hcin (by simp [hcq])
      intro x hx hpx
      obtain ⟨hxid, _⟩ : x.id = c.id ∧ x.status = Status.queued := by simpa using hpx
      exact List.inj_on_of_nodup_map hnd hx hcin hxid
    have hnd1 : ((markProcessing st now c.id).1.jobs.map Job.id).Nodup := by
      rw [markProcessing_ids]
      exact hnd
    have hmem1 : ∀ c' ∈ C',
        c' ∈ (markProcessing st now c.id).1.jobs ∧ c'.status = .queued := by
      intro c' hc'
      have h1 := (hmem c' (List.mem_cons_of_mem _ hc')).1
      have h2 := (hmem c' (List.mem_cons_of_mem _ hc')).2
      have hcne : ¬(c'.id = c.id) := by
        intro hx
        exact (List.nodup_cons.mp hcnd).1 (hx ▸ List.mem_map_of_mem Job.id hc')
      refine ⟨?_, h2⟩
      have hmap := List.mem_map_of_mem (markProcessingRow now c.id) h1
      rwa [show markProcessingRow now c.id c' = c' from
        by simp [markProcessingRow, hcne]] at hmap
    have hcnd1 : (C'.map Job.id).Nodup := (List.nodup_cons.mp hcnd).2
    show (claimLoop now st (rowOf c :: C'.map rowOf)).2 = rowOf c :: C'.map rowOf
    show (if (markProcessing st now c.id).2 = 1
        then rowOf c :: (claimLoop now (markProcessing st now c.id).1 (C'.map rowOf)).2
        else (claimLoop now (markProcessing st now c.id).1 (C'.map rowOf)).2)
      = rowOf c :: C'.map rowOf
    rw [if_pos hch, claimLoop_all now C' (markProcessing st now c.id).1 hnd1 hmem1 hcnd1]

/-- C10: if a stale processing job exists when `claimJobs` runs and fewer
than `limit` other eligible jobs precede it in the selection order of the
post-recovery table, then that very same `claimJobs` call returns the job
(stale recovery sets `available_at = now` inside the same transaction as the
candidate selection, so the recovered job is immediately eligible). -/
theorem stale_job_claimed_same_call (st : Store) (now lim stale : Nat) (j : Job)
    (hnd : (st.jobs.map Job.id).Nodup)
    (hmem : j ∈ st.jobs) (hproc : j.status = .processing)
    (hstale : j.updated_at + stale ≤ now)
    (hfew : (((requeueStaleJobs st now stale).1.jobs.filter (eligible now)).filter
        (fun x => claimLE x (requeueRow now stale j) &&
          !(decide (x = requeueRow now stale j)))).length < lim) :
    j.id ∈ (claimJobs st now lim stale).2.map ClaimedRow.id := by
  have hj'mem : requeueRow now stale j ∈ (requeueStaleJobs st now stale).1.jobs :=
    List.mem_map_of_mem _ hmem
  have hsta : isStale now stale j = true := by simp [isStale, hproc, hstale]
  have hj'q : (requeueRow now stale j).status = .queued := by
    simp [requeueRow, hsta]
  have hj'av : (requeueRow now stale j).available_at = now := by
    simp [requeueRow, hsta]
  have hel : eligible now (requeueRow now stale j) = true := by
    simp [eligible, hj'q, hj'av]
  have hj'E : requeueRow now stale j ∈
      (requeueStaleJobs st now stale).1.jobs.filter (eligible now) :=
    List.mem_filter.mpr ⟨hj'mem, hel⟩
  have hj'S : requeueRow now stale j ∈
      ((requeueStaleJobs st now stale).1.jobs.filter (eligible now)).insertionSort
        claimOrder :=
    (List.perm_insertionSort claimOrder _).mem_iff.mpr hj'E
  have hnd0 : ((requeueStaleJobs st now stale).1.jobs.map Job.id).Nodup := by
    rw [requeue_ids]
    exact hnd
  have hjnd0 : (requeueStaleJobs st now stale).1.jobs.Nodup :=
    List.Nodup.of_map _ hnd0
  have hEnd : ((requeueStaleJobs st now stale).1.jobs.filter (eligible now)).Nodup :=
    hjnd0.filter _
  have hSnd : (((requeueStaleJobs st now stale).1.jobs.filter
      (eligible now)).insertionSort claimOrder).Nodup :=
    (List.perm_insertionSort claimOrder _).nodup_iff.mpr hEnd
  have hSsort := List.sorted_insertionSort claimOrder
    ((requeueStaleJobs st now stale).1.jobs.filter (eligible now))
  have hfewS : ((((requeueStaleJobs st now stale).1.jobs.filter
      (eligible now)).insertionSort claimOrder).filter
      (fun x => claimLE x (requeueRow now stale j) &&
        !(decide (x = requeueRow now stale j)))).length < lim := by
    rw [List.Perm.length_eq ((List.perm_insertionSort claimOrder _).filter _)]
    exact hfew
  have htake : requeueRow now stale j ∈
      claimSelect (requeueStaleJobs st now stale).1 now lim :=
    mem_take_of_few_preceding _ lim _ hSsort hSnd hj'S hfewS
  have hsel : ∀ c ∈ claimSelect (requeueStaleJobs st now stale).1 now lim,
      c ∈ (requeueStaleJobs st now stale).1.jobs ∧ c.status = .queued := by
    intro c hc
    have hcS := List.take_subset _ _ hc
    have hcE := (List.perm_insertionSort claimOrder _).subset hcS
    have hcf := List.mem_filter.mp hcE
    obtain ⟨hq, _⟩ : c.status = Status.queued ∧ c.available_at ≤ now := by
      simpa [eligible] using hcf.2
    exact ⟨hcf.1, hq⟩
  have hEidnd : (((requeueStaleJobs st now stale).1.jobs.filter
      (eligible now)).map Job.id).Nodup :=
    ((List.filter_sublist _).map Job.id).nodup hnd0
  have hSidnd : ((((requeueStaleJobs st now stale).1.jobs.filter
      (eligible now)).insertionSort claimOrder).map Job.id).Nodup :=
    (((List.perm_insertionSort claimOrder _)).map Job.id).nodup_iff.mpr hEidnd
  have hselidnd : ((claimSelect (requeueStaleJobs st now stale).1 now lim).map
      Job.id).Nodup :=
    ((List.take_sublist _ _).map Job.id).nodup hSidnd
  have hall := claimLoop_all now
    (claimSelect (requeueStaleJobs st now stale).1 now lim)
    (requeueStaleJobs st now stale).1 hnd0 hsel hselidnd
  rw [show (claimJobs st now lim stale).2
      = (claimLoop now (requeueStaleJobs st now stale).1
          ((claimSelect (requeueStaleJobs st now stale).1 now lim).map rowOf)).2
      from rfl, hall, List.map_map]
  rw [show j.id = (ClaimedRow.id ∘ rowOf) (requeueRow now stale j) from
    (requeueRow_id_eq now stale j).symm]
  exact List.mem_map_of_mem _ htake

/-- Concrete job for the C10 witness: stale processing job, id 4. -/
def jC10 : Job :=
  { id := 4, folder := "Y", image_path := "b.png", text_path := "b.txt",
    status := .processing, attempts := 1, last_error := none,
    priority := 0, available_at := 0, created_at := 0, updated_at := 60 }

def stC10 : Store := { jobs := [jC10], folders := [], nextId := 5 }

/-- Witness for C10: claiming one job at time 1000 with staleness window 900
returns the stale job of `stC10` in the same call. -/
theorem stale_job_claimed_same_call_witness :
    ((stC10.jobs.map Job.id).Nodup ∧ jC10 ∈ stC10.jobs ∧
     jC10.status = .processing ∧ jC10.updated_at + 900 ≤ 1000 ∧
     (((requeueStaleJobs stC10 1000 900).1.jobs.filter (eligible 1000)).filter
        (fun x => claimLE x (requeueRow 1000 900 jC10) &&
          !(decide (x = requeueRow 1000 900 jC10)))).length < 1) ∧
    jC10.id ∈ (claimJobs stC10 1000 1 900).2.map ClaimedRow.id :=
  ⟨⟨by decide, by decide, rfl, by decide, by decide⟩,
   stale_job_claimed_same_call stC10 1000 1 900 jC10 (by decide) (by decide)
     rfl (by decide) (by decide)⟩

end Gradr
